import Mathlib

/-
Verification of the TeleInfo reader component (my_tic_component.h).

Shallow embedding of the three pieces the specification calls the core:

* the byte-stream framer (the body of MyTicComponent::loop),
* the checksum-verified record parser (MyTicComponent::processString),
* the label-keyed change-tracking store (MyTicComponent::processCommand,
  drained by MyTicComponent::update).

Numeric fields are `float` in the source; they are modelled exactly over ℚ
(every value exercised here is exactly representable, and the comparisons in
the source are plain equality tests, which ℚ reflects faithfully).  The 8-bit
`char` checksum accumulator is modelled as a Nat accumulator reduced mod 256
at every step.
-/

namespace Tic

/-- A value published to a sensor: numeric fields go through
`Sensor::publish_state(float)`, text fields through
`TextSensor::publish_state(const char *)`. -/
inductive Val where
  | num (q : ℚ)
  | txt (s : String)
deriving DecidableEq

/-- The mutable per-instance state of MyTicComponent: the enable switch, one
`*_updated` dirty flag per label, the nine numeric fields and the four text
fields, exactly as declared in the class body. -/
structure State where
  enable : Bool
  adco_updated : Bool
  optarif_updated : Bool
  iinst_updated : Bool
  isousc_updated : Bool
  papp_updated : Bool
  base_updated : Bool
  hchc_updated : Bool
  hchp_updated : Bool
  ejphn_updated : Bool
  ejphpm_updated : Bool
  ptec_updated : Bool
  imax_updated : Bool
  hhphc_updated : Bool
  iinst : ℚ
  isousc : ℚ
  papp : ℚ
  base : ℚ
  hchc : ℚ
  hchp : ℚ
  ejphn : ℚ
  ejphpm : ℚ
  imax : ℚ
  adco : String
  optarif : String
  ptec : String
  hhphc : String
deriving DecidableEq

/-- The member initializers of MyTicComponent: everything false / 0.0 / "". -/
def initState : State :=
  { enable := false
    adco_updated := false, optarif_updated := false, iinst_updated := false
    isousc_updated := false, papp_updated := false, base_updated := false
    hchc_updated := false, hchp_updated := false, ejphn_updated := false
    ejphpm_updated := false, ptec_updated := false, imax_updated := false
    hhphc_updated := false
    iinst := 0, isousc := 0, papp := 0, base := 0, hchc := 0, hchp := 0
    ejphn := 0, ejphpm := 0, imax := 0
    adco := "", optarif := "", ptec := "", hhphc := "" }

/-- `initState` after the switch has been turned on (write_state(true)). -/
def enabledInit : State := { initState with enable := true }

/-- An enabled state with pending dirty ADCO and BASE fields: a concrete
dirty state at which the drain's behavior is exercised. -/
def dirtyPending : State :=
  { enabledInit with base := 5, base_updated := true, adco := "a", adco_updated := true }

/-- Value of a digit string, as accumulated by a decimal parser. -/
def digitsToNat (ds : List Char) : Nat :=
  ds.foldl (fun a c => 10 * a + (c.toNat - 48)) 0

/-- Characters strtod/atof skips as leading whitespace (C isspace). -/
def isSpaceChar (c : Char) : Bool :=
  c == ' ' || c == '\t' || c == '\n' || c == '\x0b' || c == '\x0c' || c == '\r'

/-- The characters of the value after atof's leading-whitespace skip and
optional sign. -/
def afterSign (s : String) : List Char :=
  match s.toList.dropWhile isSpaceChar with
  | '-' :: t => t
  | '+' :: t => t
  | cs => cs

/-- Whether atof saw a leading minus (after the whitespace skip). -/
def isNegSign (s : String) : Bool :=
  match s.toList.dropWhile isSpaceChar with
  | '-' :: _ => true
  | _ => false

/-- Whether the remaining characters begin with an INF or NAN form
(case-insensitive).  atof converts these to a non-finite float rather than
reporting no conversion, so they must not count as conversion failures. -/
def isInfNanStart (cs : List Char) : Bool :=
  ((cs.take 3).map Char.toLower == ['i', 'n', 'f']) ||
  ((cs.take 3).map Char.toLower == ['n', 'a', 'n'])

/-- Decomposition used by the model of Arduino String::toFloat (which calls
atof): after the whitespace skip and the optional sign, the maximal run of
decimal digits, then an optional fractional digit run after a dot. -/
def floatParts (s : String) : Bool × List Char × List Char :=
  let cs2 := afterSign s
  let ip := cs2.takeWhile (fun c => c.isDigit)
  let rest := cs2.dropWhile (fun c => c.isDigit)
  let fp :=
    match rest with
    | '.' :: t => t.takeWhile (fun c => c.isDigit)
    | _ => []
  (isNegSign s, ip, fp)

/-- Whether String::toFloat (atof) converts anything at all: it does when,
after the whitespace skip and optional sign, it finds decimal digits (before
or after the dot) or an INF/NAN form; otherwise there is no conversion and
the result is 0.  An exponent form ("1e5") or hex form ("0x1A") necessarily
begins with a decimal digit, so those also lie in the conversion set of this
predicate; only their exact values are left unmodelled (see toFloatQ). -/
def toFloatParses (s : String) : Bool :=
  !((floatParts s).2.1.isEmpty && (floatParts s).2.2.isEmpty) ||
    isInfNanStart (afterSign s)

/-- Model of `value.toFloat()` (exact, over ℚ): 0 when no digits are found,
otherwise sign * (integer part + fraction), built as one exact fraction
(intPart * 10 ^ fracLen + fracPart) / 10 ^ fracLen.  Unmodelled values: on
exponent and hex forms the model reads only the digits before the marker, and
on INF/NAN forms it stays at 0 (non-finite floats have no ℚ counterpart).
Every theorem whose truth depends on the converted value either evaluates it
on a plain decimal string, where the model equals atof exactly, or excludes
the unmodelled forms through toFloatParses, which classifies all of them as
conversions. -/
def toFloatQ (s : String) : ℚ :=
  let p := floatParts s
  if p.2.1.isEmpty && p.2.2.isEmpty then 0
  else
    let mag : ℤ :=
      (digitsToNat p.2.1 : ℤ) * (10 : ℤ) ^ p.2.2.length + (digitsToNat p.2.2 : ℤ)
    mkRat (if p.1 then -mag else mag) ((10 : ℕ) ^ p.2.2.length)

/-- Body of the `if (label == "ADCO")` block of processCommand. -/
def pcADCO (value : String) (st : State) : State :=
  if st.adco ≠ value then { st with adco := value, adco_updated := true } else st

/-- Body of the `if (label == "BASE")` block of processCommand. -/
def pcBASE (value : String) (st : State) : State :=
  if st.base ≠ toFloatQ value then { st with base := toFloatQ value, base_updated := true } else st

/-- Body of the `if (label == "ISOUSC")` block of processCommand. -/
def pcISOUSC (value : String) (st : State) : State :=
  if st.isousc ≠ toFloatQ value then { st with isousc := toFloatQ value, isousc_updated := true } else st

/-- Body of the `if (label == "IINST")` block of processCommand. -/
def pcIINST (value : String) (st : State) : State :=
  if st.iinst ≠ toFloatQ value then { st with iinst := toFloatQ value, iinst_updated := true } else st

/-- Body of the `if (label == "PAPP")` block of processCommand. -/
def pcPAPP (value : String) (st : State) : State :=
  if st.papp ≠ toFloatQ value then { st with papp := toFloatQ value, papp_updated := true } else st

/-- Body of the `if (label == "OPTARIF")` block of processCommand. -/
def pcOPTARIF (value : String) (st : State) : State :=
  if st.optarif ≠ value then { st with optarif := value, optarif_updated := true } else st

/-- Body of the `if (label == "HCHC")` block of processCommand. -/
def pcHCHC (value : String) (st : State) : State :=
  if st.hchc ≠ toFloatQ value then { st with hchc := toFloatQ value, hchc_updated := true } else st

/-- Body of the `if (label == "HCHP")` block of processCommand. -/
def pcHCHP (value : String) (st : State) : State :=
  if st.hchp ≠ toFloatQ value then { st with hchp := toFloatQ value, hchp_updated := true } else st

/-- Body of the `if (label == "EJPHN")` block of processCommand. -/
def pcEJPHN (value : String) (st : State) : State :=
  if st.ejphn ≠ toFloatQ value then { st with ejphn := toFloatQ value, ejphn_updated := true } else st

/-- Body of the `if (label == "EJPHPM")` block of processCommand. -/
def pcEJPHPM (value : String) (st : State) : State :=
  if st.ejphpm ≠ toFloatQ value then { st with ejphpm := toFloatQ value, ejphpm_updated := true } else st

/-- Body of the `if (label == "PTEC")` block of processCommand. -/
def pcPTEC (value : String) (st : State) : State :=
  if st.ptec ≠ value then { st with ptec := value, ptec_updated := true } else st

/-- Body of the `if (label == "IMAX")` block of processCommand. -/
def pcIMAX (value : String) (st : State) : State :=
  if st.imax ≠ toFloatQ value then { st with imax := toFloatQ value, imax_updated := true } else st

/-- Body of the `if (label == "HHPHC")` block of processCommand. -/
def pcHHPHC (value : String) (st : State) : State :=
  if st.hhphc ≠ value then { st with hhphc := value, hhphc_updated := true } else st

/-- Embedding of MyTicComponent::processCommand: a chain of label comparisons;
the matching branch compares the (converted) value with the stored one and, if
different, stores it and raises that label's dirty flag; an unknown label only
logs and changes nothing. -/
def processCommand (label value : String) (st : State) : State :=
  match label with
  | "ADCO" => pcADCO value st
  | "BASE" => pcBASE value st
  | "ISOUSC" => pcISOUSC value st
  | "IINST" => pcIINST value st
  | "PAPP" => pcPAPP value st
  | "OPTARIF" => pcOPTARIF value st
  | "HCHC" => pcHCHC value st
  | "HCHP" => pcHCHP value st
  | "EJPHN" => pcEJPHN value st
  | "EJPHPM" => pcEJPHPM value st
  | "PTEC" => pcPTEC value st
  | "IMAX" => pcIMAX value st
  | "HHPHC" => pcHHPHC value st
  | _ => st

/-- The checksum rule of the protocol applied to a whole string: sum the
character codes, keep the low 6 bits, add 0x20. -/
def checksumOver (s : String) : Nat :=
  ((s.toList.foldl (fun a c => a + c.toNat) 0) &&& 0x3F) + 0x20

/-- The checksum processString computes: an 8-bit accumulator (`char checksum`)
summed over the first (length - 2) characters of the record, then masked with
0x3F and offset by 0x20. -/
def computedChecksum (s : String) : Nat :=
  (((s.toList.take (s.toList.length - 2)).foldl (fun a c => (a + c.toNat) % 256) 0) &&& 0x3F) + 0x20

/-- The checksum formula as the specification words it: the plain sum of the
ASCII codes of the characters from index 0 up to and excluding the last two,
masked with 0x3F, plus 0x20. -/
def specChecksum (s : String) : Nat :=
  checksumOver (String.mk (s.toList.take (s.toList.length - 2)))

/-- Code of the final character of the record (`str[str.length() - 1]`). -/
def lastCharCode (s : String) : Nat :=
  (s.toList.getLastD (Char.ofNat 0)).toNat

/-- `str.substring(0, str.indexOf(' '))`: the part before the first space. -/
def labelOf (s : String) : String :=
  String.mk (s.toList.takeWhile (fun c => !(c == ' ')))

/-- The part between the first and the second space of the record:
`value.substring(0, value.indexOf(' '))` after `value = str.substring(idx+1)`. -/
def valueOf (s : String) : String :=
  String.mk (((s.toList.dropWhile (fun c => !(c == ' '))).drop 1).takeWhile (fun c => !(c == ' ')))

/-- What processString did with a record: the two silent early exits (no
space / no second space), a checksum rejection carrying the transmitted and
the computed byte (the ESP_LOGW diagnostic), or a forwarded (label, value)
pair. -/
inductive Outcome where
  | noPair
  | noChecksumSep
  | mismatch (transmitted computed : Nat)
  | forwarded (label value : String)
deriving DecidableEq

/-- Embedding of MyTicComponent::processString: split on the first space into
label and rest; need a second space to delimit the value; verify the checksum
over the first (length - 2) characters against the final character; forward to
processCommand only on a match. -/
def processString (s : String) (st : State) : State × Outcome :=
  let cs := s.toList
  if cs.contains ' ' then
    let label := String.mk (cs.takeWhile (fun c => !(c == ' ')))
    let rest := (cs.dropWhile (fun c => !(c == ' '))).drop 1
    if rest.contains ' ' then
      let value := String.mk (rest.takeWhile (fun c => !(c == ' ')))
      if lastCharCode s = computedChecksum s then
        (processCommand label value st, Outcome.forwarded label value)
      else
        (st, Outcome.mismatch (lastCharCode s) (computedChecksum s))
    else (st, Outcome.noChecksumSep)
  else (st, Outcome.noPair)

/-- The byte-consuming while loop of MyTicComponent::loop, on the list of
currently available bytes: stop (and consume) at a carriage return; otherwise
append the byte to the buffer; reset the buffer after a line feed or when its
length exceeds 50.  Returns the buffer left when the loop exits together with
the bytes not yet consumed. -/
def scanBytes : List Char → String → String × List Char
  | [], buff => (buff, [])
  | c :: rest, buff =>
    if c = '\r' then (buff, rest)
    else
      let buff1 := buff.push c
      if c = '\n' ∨ buff1.length > 50 then scanBytes rest ""
      else scanBytes rest buff1

/-- One invocation of MyTicComponent::loop on the available bytes: when the
switch is off nothing is read; otherwise the while loop runs, and a nonempty
residual buffer is handed to processString.  Returns the new state, the bytes
left unread, and the records handed to processString this invocation. -/
def loopOnce (st : State) (avail : List Char) : State × List Char × List String :=
  if st.enable then
    let buff := (scanBytes avail "").1
    let rest := (scanBytes avail "").2
    if buff = "" then (st, rest, [])
    else ((processString buff st).1, rest, [buff])
  else (st, avail, [])

/-- Embedding of MyTicComponent::update (the drain): when enabled, each
`if (x_updated)` block of the source publishes that label's value and clears
its flag.  The blocks read and write disjoint state, so they are embedded as
the concatenation below plus a single record update clearing every flag
(clearing a flag that is already false is the identity).  When disabled the
whole body is skipped. -/
def update (st : State) : State × List (String × Val) :=
  if st.enable then
    ({ st with
        adco_updated := false, base_updated := false, hchc_updated := false,
        hchp_updated := false, ejphn_updated := false, ejphpm_updated := false,
        imax_updated := false, isousc_updated := false, iinst_updated := false,
        papp_updated := false, optarif_updated := false, ptec_updated := false,
        hhphc_updated := false },
      (if st.adco_updated then [("ADCO", Val.txt st.adco)] else []) ++
      (if st.base_updated then [("BASE", Val.num (st.base / 1000))] else []) ++
      (if st.hchc_updated then [("HCHC", Val.num (st.hchc / 1000))] else []) ++
      (if st.hchp_updated then [("HCHP", Val.num (st.hchp / 1000))] else []) ++
      (if st.ejphn_updated then [("EJPHN", Val.num (st.ejphn / 1000))] else []) ++
      (if st.ejphpm_updated then [("EJPHPM", Val.num (st.ejphpm / 1000))] else []) ++
      (if st.imax_updated then [("IMAX", Val.num st.imax)] else []) ++
      (if st.isousc_updated then [("ISOUSC", Val.num st.isousc)] else []) ++
      (if st.iinst_updated then [("IINST", Val.num st.iinst)] else []) ++
      (if st.papp_updated then [("PAPP", Val.num st.papp)] else []) ++
      (if st.optarif_updated then [("OPTARIF", Val.txt st.optarif)] else []) ++
      (if st.ptec_updated then [("PTEC", Val.txt st.ptec)] else []) ++
      (if st.hhphc_updated then [("HHPHC", Val.txt st.hhphc)] else []))
  else (st, [])

/-- The labels processCommand recognizes, in the order of its comparisons. -/
def schemaLabels : List String :=
  ["ADCO", "BASE", "ISOUSC", "IINST", "PAPP", "OPTARIF", "HCHC", "HCHP",
   "EJPHN", "EJPHPM", "PTEC", "IMAX", "HHPHC"]

/-- The labels whose branch of processCommand goes through toFloat. -/
def numericLabels : List String :=
  ["BASE", "ISOUSC", "IINST", "PAPP", "HCHC", "HCHP", "EJPHN", "EJPHPM", "IMAX"]

/-- The stored value of a label's tracked field (raw, as processCommand keeps
it; numeric fields are not scaled in storage). -/
def fieldVal (lbl : String) (st : State) : Option Val :=
  match lbl with
  | "ADCO" => some (Val.txt st.adco)
  | "BASE" => some (Val.num st.base)
  | "ISOUSC" => some (Val.num st.isousc)
  | "IINST" => some (Val.num st.iinst)
  | "PAPP" => some (Val.num st.papp)
  | "OPTARIF" => some (Val.txt st.optarif)
  | "HCHC" => some (Val.num st.hchc)
  | "HCHP" => some (Val.num st.hchp)
  | "EJPHN" => some (Val.num st.ejphn)
  | "EJPHPM" => some (Val.num st.ejphpm)
  | "PTEC" => some (Val.txt st.ptec)
  | "IMAX" => some (Val.num st.imax)
  | "HHPHC" => some (Val.txt st.hhphc)
  | _ => none

/-- The dirty flag of a label's tracked field. -/
def dirtyOf (lbl : String) (st : State) : Option Bool :=
  match lbl with
  | "ADCO" => some st.adco_updated
  | "BASE" => some st.base_updated
  | "ISOUSC" => some st.isousc_updated
  | "IINST" => some st.iinst_updated
  | "PAPP" => some st.papp_updated
  | "OPTARIF" => some st.optarif_updated
  | "HCHC" => some st.hchc_updated
  | "HCHP" => some st.hchp_updated
  | "EJPHN" => some st.ejphn_updated
  | "EJPHPM" => some st.ejphpm_updated
  | "PTEC" => some st.ptec_updated
  | "IMAX" => some st.imax_updated
  | "HHPHC" => some st.hhphc_updated
  | _ => none

/-- The stored numeric value of a label (only for numeric labels). -/
def numericValue (lbl : String) (st : State) : Option ℚ :=
  match lbl with
  | "BASE" => some st.base
  | "ISOUSC" => some st.isousc
  | "IINST" => some st.iinst
  | "PAPP" => some st.papp
  | "HCHC" => some st.hchc
  | "HCHP" => some st.hchp
  | "EJPHN" => some st.ejphn
  | "EJPHPM" => some st.ejphpm
  | "IMAX" => some st.imax
  | _ => none

/-- The dirty flag of a numeric label. -/
def numericDirty (lbl : String) (st : State) : Option Bool :=
  match lbl with
  | "BASE" => some st.base_updated
  | "ISOUSC" => some st.isousc_updated
  | "IINST" => some st.iinst_updated
  | "PAPP" => some st.papp_updated
  | "HCHC" => some st.hchc_updated
  | "HCHP" => some st.hchp_updated
  | "EJPHN" => some st.ejphn_updated
  | "EJPHPM" => some st.ejphpm_updated
  | "IMAX" => some st.imax_updated
  | _ => none

/-- Reset one label's field and flag to their defaults; used to compare two
states with that one field erased (frame conditions). -/
def eraseField (lbl : String) (st : State) : State :=
  match lbl with
  | "ADCO" => { st with adco := "", adco_updated := false }
  | "BASE" => { st with base := 0, base_updated := false }
  | "ISOUSC" => { st with isousc := 0, isousc_updated := false }
  | "IINST" => { st with iinst := 0, iinst_updated := false }
  | "PAPP" => { st with papp := 0, papp_updated := false }
  | "OPTARIF" => { st with optarif := "", optarif_updated := false }
  | "HCHC" => { st with hchc := 0, hchc_updated := false }
  | "HCHP" => { st with hchp := 0, hchp_updated := false }
  | "EJPHN" => { st with ejphn := 0, ejphn_updated := false }
  | "EJPHPM" => { st with ejphpm := 0, ejphpm_updated := false }
  | "PTEC" => { st with ptec := "", ptec_updated := false }
  | "IMAX" => { st with imax := 0, imax_updated := false }
  | "HHPHC" => { st with hhphc := "", hhphc_updated := false }
  | _ => st

/-- Apply a sequence of validated (label, value) pairs to the store. -/
def applyAll (evs : List (String × String)) (st : State) : State :=
  evs.foldl (fun s e => processCommand e.1 e.2 s) st

lemma applyAll_cons (e : String × String) (t : List (String × String)) (st : State) :
    applyAll (e :: t) st = applyAll t (processCommand e.1 e.2 st) := rfl

lemma foldl_add_mod (l : List Char) (a : Nat) :
    l.foldl (fun a c => (a + c.toNat) % 256) (a % 256) =
      (l.foldl (fun a c => a + c.toNat) a) % 256 := by
  induction l generalizing a with
  | nil => simp
  | cons c t ih =>
    simp only [List.foldl_cons]
    rw [Nat.mod_add_mod]
    exact ih (a + c.toNat)

/-- The 8-bit accumulator of the source computes, after the mask, the same
byte the specification's plain-sum formula gives. -/
lemma computedChecksum_eq_spec (s : String) : computedChecksum s = specChecksum s := by
  unfold computedChecksum specChecksum checksumOver
  have hmk : (String.mk (s.toList.take (s.toList.length - 2))).toList =
      s.toList.take (s.toList.length - 2) := rfl
  rw [hmk]
  have hf := foldl_add_mod (s.toList.take (s.toList.length - 2)) 0
  rw [Nat.zero_mod] at hf
  rw [hf]
  congr 1
  rw [show (0x3F : ℕ) = 2 ^ 6 - 1 from rfl, Nat.and_pow_two_sub_one_eq_mod,
    Nat.and_pow_two_sub_one_eq_mod]
  exact Nat.mod_mod_of_dvd _ (by norm_num)

/-- A list of characters holds at least two spaces exactly when it holds one
and the part after the first space holds another; the right-hand side is the
pair of conditions processString tests. -/
lemma count_space_two_iff (cs : List Char) :
    2 ≤ cs.count ' ' ↔
      (cs.contains ' ' = true ∧
        ((cs.dropWhile (fun c => !(c == ' '))).drop 1).contains ' ' = true) := by
  induction cs with
  | nil => simp
  | cons c t ih =>
    by_cases hc : c = ' '
    · subst hc
      have hdrop : (List.dropWhile (fun c => !(c == ' ')) (' ' :: t)).drop 1 = t := by
        simp [List.dropWhile_cons]
      rw [hdrop, List.count_cons]
      rw [show (if (' ' == ' ') = true then 1 else 0) = 1 by simp]
      rw [List.contains_cons]
      rw [show (' ' == ' ' || t.contains ' ') = true by simp]
      simp only [true_and]
      rw [show (t.contains ' ' = true) ↔ ' ' ∈ t by simp, ← List.count_pos_iff]
      omega
    · have hdrop : List.dropWhile (fun c => !(c == ' ')) (c :: t) =
          List.dropWhile (fun c => !(c == ' ')) t := by
        simp [List.dropWhile_cons, hc]
      rw [hdrop, List.count_cons]
      have hcc : ¬(' ' = c) := fun h => hc h.symm
      rw [show (if (c == ' ') = true then 1 else 0) = 0 by simp [hc], Nat.add_zero]
      rw [List.contains_cons]
      rw [show (' ' == c || t.contains ' ') = (t.contains ' ') by simp [hcc]]
      exact ih

/-- With at least two spaces in the record, processString reaches its checksum
test and branches on it. -/
lemma processString_two_spaces (s : String) (st : State)
    (h2 : 2 ≤ s.toList.count ' ') :
    processString s st =
      if lastCharCode s = computedChecksum s then
        (processCommand (labelOf s) (valueOf s) st,
          Outcome.forwarded (labelOf s) (valueOf s))
      else (st, Outcome.mismatch (lastCharCode s) (computedChecksum s)) := by
  obtain ⟨h1, hrest⟩ := (count_space_two_iff s.toList).1 h2
  unfold processString labelOf valueOf
  simp only [h1, hrest, if_true]


lemma pcADCO_frame (v : String) (st : State) (lbl : String) (hne : lbl ≠ "ADCO") :
    dirtyOf lbl (pcADCO v st) = dirtyOf lbl st ∧
    fieldVal lbl (pcADCO v st) = fieldVal lbl st := by
  constructor
  · unfold pcADCO dirtyOf
    split <;> first | rfl | (split_ifs <;> simp_all)
  · unfold pcADCO fieldVal
    split <;> first | rfl | (split_ifs <;> simp_all)

lemma pcBASE_frame (v : String) (st : State) (lbl : String) (hne : lbl ≠ "BASE") :
    dirtyOf lbl (pcBASE v st) = dirtyOf lbl st ∧
    fieldVal lbl (pcBASE v st) = fieldVal lbl st := by
  constructor
  · unfold pcBASE dirtyOf
    split <;> first | rfl | (split_ifs <;> simp_all)
  · unfold pcBASE fieldVal
    split <;> first | rfl | (split_ifs <;> simp_all)

lemma pcISOUSC_frame (v : String) (st : State) (lbl : String) (hne : lbl ≠ "ISOUSC") :
    dirtyOf lbl (pcISOUSC v st) = dirtyOf lbl st ∧
    fieldVal lbl (pcISOUSC v st) = fieldVal lbl st := by
  constructor
  · unfold pcISOUSC dirtyOf
    split <;> first | rfl | (split_ifs <;> simp_all)
  · unfold pcISOUSC fieldVal
    split <;> first | rfl | (split_ifs <;> simp_all)

lemma pcIINST_frame (v : String) (st : State) (lbl : String) (hne : lbl ≠ "IINST") :
    dirtyOf lbl (pcIINST v st) = dirtyOf lbl st ∧
    fieldVal lbl (pcIINST v st) = fieldVal lbl st := by
  constructor
  · unfold pcIINST dirtyOf
    split <;> first | rfl | (split_ifs <;> simp_all)
  · unfold pcIINST fieldVal
    split <;> first | rfl | (split_ifs <;> simp_all)

lemma pcPAPP_frame (v : String) (st : State) (lbl : String) (hne : lbl ≠ "PAPP") :
    dirtyOf lbl (pcPAPP v st) = dirtyOf lbl st ∧
    fieldVal lbl (pcPAPP v st) = fieldVal lbl st := by
  constructor
  · unfold pcPAPP dirtyOf
    split <;> first | rfl | (split_ifs <;> simp_all)
  · unfold pcPAPP fieldVal
    split <;> first | rfl | (split_ifs <;> simp_all)

lemma pcOPTARIF_frame (v : String) (st : State) (lbl : String) (hne : lbl ≠ "OPTARIF") :
    dirtyOf lbl (pcOPTARIF v st) = dirtyOf lbl st ∧
    fieldVal lbl (pcOPTARIF v st) = fieldVal lbl st := by
  constructor
  · unfold pcOPTARIF dirtyOf
    split <;> first | rfl | (split_ifs <;> simp_all)
  · unfold pcOPTARIF fieldVal
    split <;> first | rfl | (split_ifs <;> simp_all)

lemma pcHCHC_frame (v : String) (st : State) (lbl : String) (hne : lbl ≠ "HCHC") :
    dirtyOf lbl (pcHCHC v st) = dirtyOf lbl st ∧
    fieldVal lbl (pcHCHC v st) = fieldVal lbl st := by
  constructor
  · unfold pcHCHC dirtyOf
    split <;> first | rfl | (split_ifs <;> simp_all)
  · unfold pcHCHC fieldVal
    split <;> first | rfl | (split_ifs <;> simp_all)

lemma pcHCHP_frame (v : String) (st : State) (lbl : String) (hne : lbl ≠ "HCHP") :
    dirtyOf lbl (pcHCHP v st) = dirtyOf lbl st ∧
    fieldVal lbl (pcHCHP v st) = fieldVal lbl st := by
  constructor
  · unfold pcHCHP dirtyOf
    split <;> first | rfl | (split_ifs <;> simp_all)
  · unfold pcHCHP fieldVal
    split <;> first | rfl | (split_ifs <;> simp_all)

lemma pcEJPHN_frame (v : String) (st : State) (lbl : String) (hne : lbl ≠ "EJPHN") :
    dirtyOf lbl (pcEJPHN v st) = dirtyOf lbl st ∧
    fieldVal lbl (pcEJPHN v st) = fieldVal lbl st := by
  constructor
  · unfold pcEJPHN dirtyOf
    split <;> first | rfl | (split_ifs <;> simp_all)
  · unfold pcEJPHN fieldVal
    split <;> first | rfl | (split_ifs <;> simp_all)

lemma pcEJPHPM_frame (v : String) (st : State) (lbl : String) (hne : lbl ≠ "EJPHPM") :
    dirtyOf lbl (pcEJPHPM v st) = dirtyOf lbl st ∧
    fieldVal lbl (pcEJPHPM v st) = fieldVal lbl st := by
  constructor
  · unfold pcEJPHPM dirtyOf
    split <;> first | rfl | (split_ifs <;> simp_all)
  · unfold pcEJPHPM fieldVal
    split <;> first | rfl | (split_ifs <;> simp_all)

lemma pcPTEC_frame (v : String) (st : State) (lbl : String) (hne : lbl ≠ "PTEC") :
    dirtyOf lbl (pcPTEC v st) = dirtyOf lbl st ∧
    fieldVal lbl (pcPTEC v st) = fieldVal lbl st := by
  constructor
  · unfold pcPTEC dirtyOf
    split <;> first | rfl | (split_ifs <;> simp_all)
  · unfold pcPTEC fieldVal
    split <;> first | rfl | (split_ifs <;> simp_all)

lemma pcIMAX_frame (v : String) (st : State) (lbl : String) (hne : lbl ≠ "IMAX") :
    dirtyOf lbl (pcIMAX v st) = dirtyOf lbl st ∧
    fieldVal lbl (pcIMAX v st) = fieldVal lbl st := by
  constructor
  · unfold pcIMAX dirtyOf
    split <;> first | rfl | (split_ifs <;> simp_all)
  · unfold pcIMAX fieldVal
    split <;> first | rfl | (split_ifs <;> simp_all)

lemma pcHHPHC_frame (v : String) (st : State) (lbl : String) (hne : lbl ≠ "HHPHC") :
    dirtyOf lbl (pcHHPHC v st) = dirtyOf lbl st ∧
    fieldVal lbl (pcHHPHC v st) = fieldVal lbl st := by
  constructor
  · unfold pcHHPHC dirtyOf
    split <;> first | rfl | (split_ifs <;> simp_all)
  · unfold pcHHPHC fieldVal
    split <;> first | rfl | (split_ifs <;> simp_all)

lemma processCommand_frame (l v : String) (st : State) (lbl : String) (hne : l ≠ lbl) :
    dirtyOf lbl (processCommand l v st) = dirtyOf lbl st ∧
    fieldVal lbl (processCommand l v st) = fieldVal lbl st := by
  unfold processCommand
  split
  · exact pcADCO_frame v st lbl (fun e => hne (by rw [e]))
  · exact pcBASE_frame v st lbl (fun e => hne (by rw [e]))
  · exact pcISOUSC_frame v st lbl (fun e => hne (by rw [e]))
  · exact pcIINST_frame v st lbl (fun e => hne (by rw [e]))
  · exact pcPAPP_frame v st lbl (fun e => hne (by rw [e]))
  · exact pcOPTARIF_frame v st lbl (fun e => hne (by rw [e]))
  · exact pcHCHC_frame v st lbl (fun e => hne (by rw [e]))
  · exact pcHCHP_frame v st lbl (fun e => hne (by rw [e]))
  · exact pcEJPHN_frame v st lbl (fun e => hne (by rw [e]))
  · exact pcEJPHPM_frame v st lbl (fun e => hne (by rw [e]))
  · exact pcPTEC_frame v st lbl (fun e => hne (by rw [e]))
  · exact pcIMAX_frame v st lbl (fun e => hne (by rw [e]))
  · exact pcHHPHC_frame v st lbl (fun e => hne (by rw [e]))
  · exact ⟨rfl, rfl⟩

lemma dirty_step (lbl l v : String) (st : State) (hl : lbl ∈ schemaLabels) :
    (dirtyOf lbl (processCommand l v st) = some true ↔
      (dirtyOf lbl st = some true ∨
        fieldVal lbl (processCommand l v st) ≠ fieldVal lbl st)) := by
  by_cases he : l = lbl
  · subst he
    fin_cases hl <;>
    · simp only [processCommand]
      simp only [pcADCO, pcBASE, pcISOUSC, pcIINST, pcPAPP, pcOPTARIF, pcHCHC,
        pcHCHP, pcEJPHN, pcEJPHPM, pcPTEC, pcIMAX, pcHHPHC]
      split_ifs with h
      · have h2 := fun e => h (Eq.symm e)
        simp [dirtyOf, fieldVal]
        exact Or.inr h2
      · simp
  · obtain ⟨hd, hf⟩ := processCommand_frame l v st lbl he
    rw [hd, hf]
    simp


lemma dirtyOf_isSome (lbl : String) (hl : lbl ∈ schemaLabels) (st : State) :
    ∃ b, dirtyOf lbl st = some b := by
  fin_cases hl <;> exact ⟨_, rfl⟩

lemma dirty_persist (lbl : String) (hl : lbl ∈ schemaLabels)
    (evs : List (String × String)) (st : State)
    (h : dirtyOf lbl st = some true) :
    dirtyOf lbl (applyAll evs st) = some true := by
  induction evs generalizing st with
  | nil => exact h
  | cons e t ih =>
    rw [applyAll_cons]
    exact ih _ ((dirty_step lbl e.1 e.2 st hl).2 (Or.inl h))

/-- The dirty flag of a tracked field, starting clean, ends raised over a
sequence of applied pairs exactly when some prefix of the sequence moved the
field's value away from where it was at the start. -/
lemma dirty_iff_changed (lbl : String) (hl : lbl ∈ schemaLabels)
    (evs : List (String × String)) (st : State)
    (h0 : dirtyOf lbl st = some false) :
    (dirtyOf lbl (applyAll evs st) = some true ↔
      ∃ k, fieldVal lbl (applyAll (evs.take k) st) ≠ fieldVal lbl st) := by
  induction evs generalizing st with
  | nil =>
    rw [show applyAll [] st = st from rfl, h0]
    constructor
    · intro h; exact absurd h (by simp)
    · rintro ⟨k, hk⟩
      exact absurd (by rw [show List.take k ([] : List (String × String)) = [] by simp,
        show applyAll [] st = st from rfl]) hk
  | cons e t ih =>
    have hstep := dirty_step lbl e.1 e.2 st hl
    by_cases hch : fieldVal lbl (processCommand e.1 e.2 st) = fieldVal lbl st
    · have hd1 : dirtyOf lbl (processCommand e.1 e.2 st) = some false := by
        obtain ⟨b, hb⟩ := dirtyOf_isSome lbl hl (processCommand e.1 e.2 st)
        cases b
        · exact hb
        · exfalso
          rcases hstep.1 hb with h | h
          · rw [h0] at h; simp at h
          · exact h hch
      rw [applyAll_cons, ih (processCommand e.1 e.2 st) hd1]
      constructor
      · rintro ⟨j, hj⟩
        refine ⟨j + 1, ?_⟩
        rw [show (e :: t).take (j + 1) = e :: t.take j from rfl, applyAll_cons]
        rw [hch] at hj
        exact hj
      · rintro ⟨k, hk⟩
        cases k with
        | zero =>
          exact absurd (by rw [show (e :: t).take 0 = [] from rfl,
            show applyAll [] st = st from rfl]) hk
        | succ j =>
          refine ⟨j, ?_⟩
          rw [show (e :: t).take (j + 1) = e :: t.take j from rfl, applyAll_cons] at hk
          rw [hch]
          exact hk
    · have hd1 : dirtyOf lbl (processCommand e.1 e.2 st) = some true :=
        hstep.2 (Or.inr hch)
      have hfin : dirtyOf lbl (applyAll (e :: t) st) = some true := by
        rw [applyAll_cons]
        exact dirty_persist lbl hl t _ hd1
      constructor
      · intro _
        refine ⟨1, ?_⟩
        rw [show (e :: t).take 1 = [e] from rfl,
          show applyAll [e] st = processCommand e.1 e.2 st from rfl]
        exact hch
      · intro _
        exact hfin

lemma scan_no_cr (bs : List Char) (buff : String) (h : '\r' ∉ bs) :
    (scanBytes bs buff).2 = [] := by
  induction bs generalizing buff with
  | nil => rfl
  | cons c t ih =>
    have hc : ¬(c = '\r') := fun e => h (e ▸ List.mem_cons_self c t)
    have ht : '\r' ∉ t := fun hm => h (List.mem_cons_of_mem c hm)
    simp only [scanBytes]
    rw [if_neg hc]
    by_cases hb : c = '\n' ∨ (buff.push c).length > 50
    · rw [if_pos hb]; exact ih _ ht
    · rw [if_neg hb]; exact ih _ ht


/-- C1: for every record string with at least two space characters,
processString computes the checksum as the plain sum of the character codes of
the record's characters from index 0 up to and excluding the last two, masked
with 0x3F, plus 0x20, and it forwards the parsed (label, value) pair to the
store (processCommand) exactly when this computed byte equals the code of the
record's last character. -/
theorem C1_checksum_gate (s : String) (st : State)
    (h2 : 2 ≤ s.toList.count ' ') :
    (processString s st =
        (processCommand (labelOf s) (valueOf s) st,
          Outcome.forwarded (labelOf s) (valueOf s))) ↔
      lastCharCode s = specChecksum s := by
  rw [← computedChecksum_eq_spec]
  rw [processString_two_spaces s st h2]
  by_cases h : lastCharCode s = computedChecksum s
  · simp only [h, if_pos rfl]
    simp [h]
  · rw [if_neg h]
    simp only [Prod.mk.injEq]
    constructor
    · rintro ⟨-, he⟩
      exact absurd he (by simp)
    · intro he
      exact absurd he h

/-- C1 witness at the record "A B C", whose checksum happens to be correct. -/
theorem C1_witness :
    (2 ≤ ("A B C".toList.count ' ')) ∧
    ((processString "A B C" enabledInit =
        (processCommand (labelOf "A B C") (valueOf "A B C") enabledInit,
          Outcome.forwarded (labelOf "A B C") (valueOf "A B C"))) ↔
      lastCharCode "A B C" = specChecksum "A B C") :=
  ⟨by decide, C1_checksum_gate "A B C" enabledInit (by decide)⟩

/-- C2 counterexample: feeding the bytes "AB" (no carriage return) in one
enabled loop invocation hands the record "AB" to the parser, so a record IS
emitted to the parser without any 0x0D byte; and delivering "A" then "B\r"
across two loop invocations emits different records than delivering "AB\r" in
one invocation, so framer state does not survive interruption between
invocations. -/
theorem C2_cex :
    (('\r' ∉ ['A', 'B']) ∧ (loopOnce enabledInit ['A', 'B']).2.2 = ["AB"]) ∧
    ((loopOnce enabledInit ['A']).2.2 ++
        (loopOnce (loopOnce enabledInit ['A']).1 ['B', '\r']).2.2 ≠
      (loopOnce enabledInit (['A'] ++ ['B', '\r'])).2.2) :=
  ⟨⟨by decide, by decide⟩, by decide⟩

/-- C2 amended: within a single enabled loop invocation, a byte sequence with
no carriage return is consumed entirely and never completes a record at the
terminator path; the only string handed to the parser is the residual buffer
left at byte exhaustion, when nonempty.  The buffer is local to the
invocation, so a delivery split across invocations is not equivalent to an
uninterrupted one. -/
theorem C2_no_cr_behavior (bs : List Char) (st : State)
    (hr : '\r' ∉ bs) (he : st.enable = true) :
    (loopOnce st bs).2.1 = [] ∧
    (loopOnce st bs).2.2 =
      (if (scanBytes bs "").1 = "" then [] else [(scanBytes bs "").1]) ∧
    ((loopOnce enabledInit ['A']).2.2 ++
        (loopOnce (loopOnce enabledInit ['A']).1 ['B', '\r']).2.2 ≠
      (loopOnce enabledInit (['A'] ++ ['B', '\r'])).2.2) := by
  refine ⟨?_, ?_, by decide⟩
  · unfold loopOnce
    rw [if_pos he]
    by_cases hb : (scanBytes bs "").1 = ""
    · simp [hb, scan_no_cr bs "" hr]
    · simp [hb, scan_no_cr bs "" hr]
  · unfold loopOnce
    rw [if_pos he]
    by_cases hb : (scanBytes bs "").1 = ""
    · simp [hb]
    · simp [hb]

/-- C2 witness at the carriage-return-free byte list "AB". -/
theorem C2_witness :
    ('\r' ∉ ['A', 'B']) ∧ (enabledInit.enable = true) ∧
    ((loopOnce enabledInit ['A', 'B']).2.1 = [] ∧
     (loopOnce enabledInit ['A', 'B']).2.2 =
       (if (scanBytes ['A', 'B'] "").1 = "" then [] else [(scanBytes ['A', 'B'] "").1]) ∧
     ((loopOnce enabledInit ['A']).2.2 ++
         (loopOnce (loopOnce enabledInit ['A']).1 ['B', '\r']).2.2 ≠
       (loopOnce enabledInit (['A'] ++ ['B', '\r'])).2.2)) :=
  ⟨by decide, rfl, C2_no_cr_behavior ['A', 'B'] enabledInit (by decide) rfl⟩

/-- C3: a record that reaches the checksum test (two separators present) and
whose computed checksum differs from its final character is dropped: the store
state is untouched, nothing is forwarded, and the mismatch diagnostic carries
both the transmitted and the computed byte. -/
theorem C3_mismatch_drop (s : String) (st : State)
    (h2 : 2 ≤ s.toList.count ' ')
    (hm : lastCharCode s ≠ specChecksum s) :
    processString s st = (st, Outcome.mismatch (lastCharCode s) (specChecksum s)) := by
  rw [← computedChecksum_eq_spec] at hm ⊢
  rw [processString_two_spaces s st h2, if_neg hm]

/-- C3 witness at the record "A B D", whose checksum byte is wrong. -/
theorem C3_witness :
    (2 ≤ ("A B D".toList.count ' ')) ∧
    (lastCharCode "A B D" ≠ specChecksum "A B D") ∧
    processString "A B D" enabledInit =
      (enabledInit, Outcome.mismatch (lastCharCode "A B D") (specChecksum "A B D")) :=
  ⟨by decide, by decide, C3_mismatch_drop "A B D" enabledInit (by decide) (by decide)⟩

/-- C4: for every tracked field and EVERY state, dirty or clean: a drain
immediately followed by another drain publishes nothing, and a drain changes
no field's stored value and not the enable flag — it clears only dirty flags;
moreover, when the field's flag starts clear (as a drain leaves it), the flag
is raised after a sequence of applied pairs exactly when the field's value
changed at some point of the sequence (some prefix leaves it different from
its starting value). -/
theorem C4_dirty_invariant (lbl : String) (evs : List (String × String)) (st : State)
    (hl : lbl ∈ schemaLabels) :
    (dirtyOf lbl st = some false →
      (dirtyOf lbl (applyAll evs st) = some true ↔
        ∃ k, fieldVal lbl (applyAll (evs.take k) st) ≠ fieldVal lbl st)) ∧
    (update (update st).1).2 = [] ∧
    fieldVal lbl (update st).1 = fieldVal lbl st ∧
    (update st).1.enable = st.enable := by
  refine ⟨fun h0 => dirty_iff_changed lbl hl evs st h0, ?_, ?_, ?_⟩
  · by_cases he : st.enable
    · simp [update, he]
    · simp [update, he]
  · by_cases he : st.enable
    · fin_cases hl <;> simp [update, he, fieldVal]
    · simp [update, he]
  · by_cases he : st.enable <;> simp [update, he]

/-- C4 witness: the drain conjuncts exercised at a state with pending dirty
ADCO and BASE fields, and the dirty-iff-changed conjunct discharged at the
clean enabled initial state. -/
theorem C4_witness :
    ("BASE" ∈ schemaLabels) ∧ (dirtyOf "BASE" enabledInit = some false) ∧
    ((update (update dirtyPending).1).2 = [] ∧
      fieldVal "BASE" (update dirtyPending).1 = fieldVal "BASE" dirtyPending ∧
      (update dirtyPending).1.enable = dirtyPending.enable) ∧
    (dirtyOf "BASE" (applyAll [("BASE", "1")] enabledInit) = some true ↔
      ∃ k, fieldVal "BASE" (applyAll (List.take k [("BASE", "1")]) enabledInit) ≠
        fieldVal "BASE" enabledInit) :=
  ⟨by decide, by decide,
    (C4_dirty_invariant "BASE" [] dirtyPending (by decide)).2,
    (C4_dirty_invariant "BASE" [("BASE", "1")] enabledInit (by decide)).1 (by decide)⟩

/-- C5 counterexample: "BASE 012345678 /" carries the correct checksum (the
rule over "BASE 012345678" yields the byte 0x2F, the final character), yet
after feeding "BASE 012345678 /\r" the STORED value for BASE is the raw
12345678, not 12345.678: the scale divisor is not applied before comparison
and storage. -/
theorem C5_cex :
    checksumOver "BASE 012345678" = Char.toNat '/' ∧
    (loopOnce enabledInit ("BASE 012345678 /\r").toList).1.base = 12345678 ∧
    (loopOnce enabledInit ("BASE 012345678 /\r").toList).1.base ≠ (12345.678 : ℚ) := by
  refine ⟨by decide, by decide, ?_⟩
  rw [show (loopOnce enabledInit ("BASE 012345678 /\r").toList).1.base =
    (12345678 : ℚ) by decide]
  norm_num

/-- C5 amended: feeding "BASE 012345678 /\r" (correct checksum) stores the raw
parsed value 12345678 for BASE; the schema's ÷1000 scale is applied only when
the drain publishes the field, so the published value is 12345678 / 1000,
which equals 12345.678. -/
theorem C5_scale_at_publish :
    (loopOnce enabledInit ("BASE 012345678 /\r").toList).1.base = 12345678 ∧
    (("BASE", Val.num ((12345678 : ℚ) / 1000)) ∈
      (update (loopOnce enabledInit ("BASE 012345678 /\r").toList).1).2) ∧
    ((12345678 : ℚ) / 1000 = (12345.678 : ℚ)) := by
  have hb : (loopOnce enabledInit ("BASE 012345678 /\r").toList).1.base =
      (12345678 : ℚ) := by decide
  refine ⟨hb, ?_, by norm_num⟩
  have hu : (update (loopOnce enabledInit ("BASE 012345678 /\r").toList).1).2 =
      [("BASE",
        Val.num ((loopOnce enabledInit ("BASE 012345678 /\r").toList).1.base / 1000))] := rfl
  rw [hu, hb]
  exact List.mem_singleton.mpr rfl

/-- C6 counterexample: the checksum rule applied to "ADCO 031122334455 "
(trailing separator included, exactly as the claim prescribes) yields the byte
0x58, the character X itself; but feeding "ADCO 031122334455 X\r" is REJECTED
by the parser, which sums only up to and excluding the last two characters and
so expects 0x38; the subsequent drain does not contain ("ADCO",
"031122334455"). -/
theorem C6_cex :
    checksumOver "ADCO 031122334455 " = Char.toNat 'X' ∧
    (("ADCO", Val.txt "031122334455") ∉
      (update (loopOnce enabledInit ("ADCO 031122334455 X\r").toList).1).2) :=
  ⟨by decide, by decide⟩

/-- C6 amended: with the checksum character computed over "ADCO 031122334455"
(trailing separator excluded, per the parser's actual rule), which is the byte
0x38, the character 8, feeding "ADCO 031122334455 8\r" results in a subsequent
drain containing the pair ("ADCO", "031122334455"). -/
theorem C6_end_to_end :
    checksumOver "ADCO 031122334455" = Char.toNat '8' ∧
    (("ADCO", Val.txt "031122334455") ∈
      (update (loopOnce enabledInit ("ADCO 031122334455 8\r").toList).1).2) :=
  ⟨by decide, by decide⟩

/-- C7: a validated pair whose label is not in the schema is a no-op: the
store state is completely unchanged (so no value and no dirty flag moves, and
no error is possible), and no drain output ever carries that label. -/
theorem C7_unknown_label_noop (lbl v : String) (st : State) (h : lbl ∉ schemaLabels) :
    processCommand lbl v st = st ∧
    (update st).2.filter (fun p => p.1 == lbl) = [] := by
  simp only [schemaLabels, List.mem_cons, List.not_mem_nil, or_false, not_or] at h
  obtain ⟨h1, h2, h3, h4, h5, h6, h7, h8, h9, h10, h11, h12, h13⟩ := h
  constructor
  · unfold processCommand
    split <;> simp_all
  · by_cases he : st.enable
    · simp [update, he, List.filter_append,
        Ne.symm h1, Ne.symm h2, Ne.symm h3, Ne.symm h4, Ne.symm h5, Ne.symm h6,
        Ne.symm h7, Ne.symm h8, Ne.symm h9, Ne.symm h10, Ne.symm h11, Ne.symm h12,
        Ne.symm h13]
    · simp [update, he]

/-- C7 witness at the unknown label "FOO". -/
theorem C7_witness :
    ("FOO" ∉ schemaLabels) ∧
    (processCommand "FOO" "1" enabledInit = enabledInit ∧
      (update enabledInit).2.filter (fun p => p.1 == "FOO") = []) :=
  ⟨by decide, C7_unknown_label_noop "FOO" "1" enabledInit (by decide)⟩

/-- C8: applying a pair with a numeric schema label and a value in which
toFloat finds no numeric prefix converts the value to 0 and behaves exactly
like applying 0: the stored value ends at 0, the dirty flag is raised only if
the stored value differed from 0 (otherwise it is left as it was), and no
fault is possible. -/
theorem C8_parse_failure_zero (lbl v : String) (st : State)
    (hl : lbl ∈ numericLabels) (hv : toFloatParses v = false) :
    toFloatQ v = 0 ∧
    numericValue lbl (processCommand lbl v st) = some 0 ∧
    numericDirty lbl (processCommand lbl v st) =
      (if numericValue lbl st = some 0 then numericDirty lbl st else some true) := by
  have hp : ((floatParts v).2.1.isEmpty && (floatParts v).2.2.isEmpty) = true := by
    unfold toFloatParses at hv
    rcases Bool.or_eq_false_iff.mp hv with ⟨h1, -⟩
    simpa using h1
  have h0 : toFloatQ v = 0 := by unfold toFloatQ; rw [if_pos hp]
  refine ⟨h0, ?_⟩
  fin_cases hl <;>
  · simp only [processCommand, pcBASE, pcISOUSC, pcIINST, pcPAPP, pcHCHC, pcHCHP,
      pcEJPHN, pcEJPHPM, pcIMAX]
    rw [h0]
    simp only [numericValue, numericDirty]
    split_ifs <;> simp_all

/-- C8 witness: the numeric label BASE, the unparseable value "abc", and a
state whose stored BASE value is 5. -/
theorem C8_witness :
    ("BASE" ∈ numericLabels) ∧ (toFloatParses "abc" = false) ∧
    (toFloatQ "abc" = 0 ∧
      numericValue "BASE" (processCommand "BASE" "abc" { enabledInit with base := 5 }) = some 0 ∧
      numericDirty "BASE" (processCommand "BASE" "abc" { enabledInit with base := 5 }) =
        (if numericValue "BASE" { enabledInit with base := 5 } = some 0 then
          numericDirty "BASE" { enabledInit with base := 5 } else some true)) :=
  ⟨by decide, by decide,
    C8_parse_failure_zero "BASE" "abc" { enabledInit with base := 5 } (by decide) (by decide)⟩

/-- C9: with the enable switch off, update (the drain) is a complete no-op:
it publishes nothing and leaves every field and dirty flag unchanged, so the
pending dirty state is retained across the disabled period and the first drain
after re-enabling behaves exactly as if the disabled drain had never run. -/
theorem C9_disabled_drain (st : State) (h : st.enable = false) :
    update st = (st, []) ∧
    update { (update st).1 with enable := true } = update { st with enable := true } := by
  have h1 : update st = (st, []) := by
    unfold update
    rw [if_neg (by rw [h]; exact Bool.false_ne_true)]
  exact ⟨h1, by rw [h1]⟩

/-- C9 witness: a disabled state with a pending dirty BASE flag. -/
theorem C9_witness :
    ({ initState with base_updated := true } : State).enable = false ∧
    (update { initState with base_updated := true } =
        ({ initState with base_updated := true }, []) ∧
      update { (update { initState with base_updated := true }).1 with enable := true } =
        update { { initState with base_updated := true } with enable := true }) :=
  ⟨rfl, C9_disabled_drain { initState with base_updated := true } rfl⟩

/-- C10: applying a validated pair with a recognized label changes at most
that label's stored value and dirty flag: after erasing that one field, the
resulting state is identical to the starting state with the same field
erased. -/
theorem C10_frame (lbl v : String) (st : State) (hl : lbl ∈ schemaLabels) :
    eraseField lbl (processCommand lbl v st) = eraseField lbl st := by
  fin_cases hl <;>
  · simp only [processCommand, pcADCO, pcBASE, pcISOUSC, pcIINST, pcPAPP, pcOPTARIF,
      pcHCHC, pcHCHP, pcEJPHN, pcEJPHPM, pcPTEC, pcIMAX, pcHHPHC]
    split_ifs <;> simp [eraseField]

/-- C10 witness at the label ADCO. -/
theorem C10_witness :
    ("ADCO" ∈ schemaLabels) ∧
    eraseField "ADCO" (processCommand "ADCO" "x" enabledInit) = eraseField "ADCO" enabledInit :=
  ⟨by decide, C10_frame "ADCO" "x" enabledInit (by decide)⟩

end Tic
